import Mathlib

/-!
Shallow embedding of the windowed alignment predictor from
`crates/diff/src/nextchunk.rs`, the match extractor from
`crates/diff/src/sink.rs`, and the token-source adapter from
`crates/diff/src/source.rs`.

Modelling conventions:
- Rust `i32` tokens become `Int` (tokens are only compared for equality).
- Rust `usize` / `u32` indices and lengths become `Nat`; no arithmetic in the
  source can overflow for sequences of realistic size, and `saturating_sub`
  is exactly truncated `Nat` subtraction.
- Rust slices become `List Int`; `&a[lo..hi]` becomes `listSlice a lo hi`.
- The `assert_eq!` calls in `MatchCollector` abort the process; fallible
  functions therefore return `Option`, with `none` modelling the fatal
  assertion failure.
- The external alignment primitive (`imara_diff::diff`, an out-of-repository
  crate) is a parameter: `_next_chunk` takes the function producing the
  chronological change-region stream as an explicit argument.
-/

/-- Half-open index range, mirroring Rust `Range<u32>` (`start..end`).
Rust's `end` field is a Lean keyword and is rendered `stop`. -/
structure NRange where
  start : Nat
  stop : Nat
deriving Repr, DecidableEq

/-- Rust `Range::len()`: number of indices in the range; `0` when the range
is backwards (Rust computes it from `size_hint`, which reports `0` then). -/
def NRange.rlen (r : NRange) : Nat := r.stop - r.start

/-- Rust `Range::is_empty()`: `!(start < end)`. -/
def NRange.isEmpty (r : NRange) : Bool := decide (r.stop ≤ r.start)

/-- The state of `MatchCollector` from `sink.rs`: accumulated matching
blocks `(range_in_a, range_in_b)`, the cursors past the last processed
change, and the total lengths of the two diffed sides. -/
structure MatchCollector where
  «matches» : List (NRange × NRange)
  last_a : Nat
  last_b : Nat
  total_a_len : Nat
  total_b_len : Nat
deriving Repr, DecidableEq

/-- The constructor `MatchCollector::new(total_a_len, total_b_len)`: empty
match list and zeroed cursors (the `Default` part of `..Default::default()`). -/
def MatchCollector.new (total_a_len total_b_len : Nat) : MatchCollector :=
  ⟨[], 0, 0, total_a_len, total_b_len⟩

/-- The `Sink::process_change` impl of `MatchCollector`: the matching block is
the region before this change; it is pushed when non-empty on either side,
after the `assert_eq!` that both sides have equal length (`none` models that
assertion firing). The cursors advance to the end of the change either way. -/
def MatchCollector.process_change (c : MatchCollector) (before after : NRange) :
    Option MatchCollector :=
  let match_range_a : NRange := ⟨c.last_a, before.start⟩
  let match_range_b : NRange := ⟨c.last_b, after.start⟩
  if !match_range_a.isEmpty || !match_range_b.isEmpty then
    if match_range_a.rlen = match_range_b.rlen then
      some { c with
              «matches» := c.«matches» ++ [(match_range_a, match_range_b)],
              last_a := before.stop,
              last_b := after.stop }
    else
      none
  else
    some { c with last_a := before.stop, last_b := after.stop }

/-- The `Sink::finish` impl of `MatchCollector`: append the final matching
block after the last change, if any, with the same equal-length assertion. -/
def MatchCollector.finish (c : MatchCollector) : Option (List (NRange × NRange)) :=
  let final_match_range_a : NRange := ⟨c.last_a, c.total_a_len⟩
  let final_match_range_b : NRange := ⟨c.last_b, c.total_b_len⟩
  if !final_match_range_a.isEmpty || !final_match_range_b.isEmpty then
    if final_match_range_a.rlen = final_match_range_b.rlen then
      some (c.«matches» ++ [(final_match_range_a, final_match_range_b)])
    else
      none
  else
    some c.«matches»

/-- Running the whole sink: `imara_diff::diff` feeds each change region of the
chronological stream to `process_change` and then calls `finish`. -/
def runCollector (changes : List (NRange × NRange)) (aLen bLen : Nat) :
    Option (List (NRange × NRange)) :=
  (changes.foldlM
    (fun (c : MatchCollector) (p : NRange × NRange) => c.process_change p.1 p.2)
    (MatchCollector.new aLen bLen)).bind MatchCollector.finish

/-- Rust slice indexing `&l[lo..hi]` (on the valid inputs the source uses,
`lo ≤ hi ≤ l.length`; this total version agrees there). -/
def listSlice (l : List Int) (lo hi : Nat) : List Int :=
  (l.drop lo).take (hi - lo)

/-- The `StreamNextChunk` pyclass from `nextchunk.rs`: the reference
sequence `a` and the three window-configuration fields. -/
structure StreamNextChunk where
  a : List Int
  window_size : Nat
  min_window_threshold : Nat
  a_window_factor : Nat
deriving Repr, DecidableEq

/-- The constructor `StreamNextChunk::new` (the pyo3 `py_new` binding computes
the identical values): `window_size = max(1, a.len() / 15)` or `0` for an
empty reference, `min_window_threshold = 100`, `a_window_factor = 3`. -/
def StreamNextChunk.new (a_slice : List Int) : StreamNextChunk :=
  { a := a_slice
    window_size := if a_slice.isEmpty then 0 else max 1 (a_slice.length / 15)
    min_window_threshold := 100
    a_window_factor := 3 }

/-- The windowing decision at the top of `_next_chunk`: window only when
`current_b` is non-empty, `window_size` is positive and at least the
threshold, and `current_b` is at least one window long. -/
def StreamNextChunk.apply_windowing (s : StreamNextChunk) (current_b : List Int) :
    Bool :=
  !current_b.isEmpty
    && decide (0 < s.window_size)
    && decide (s.min_window_threshold ≤ s.window_size)
    && decide (s.window_size ≤ current_b.length)

/-- The slice-selection block of `_next_chunk`: returns
`(a_slice, b_slice, a_slice_start_offset)`. Windowed: keep the last
`window_size` observed tokens, and a reference window starting
`window_size` earlier (saturating) and `a_window_factor` windows wide,
clamped to the reference. Unwindowed: the full sequences with offset 0. -/
def StreamNextChunk.selected_slices (s : StreamNextChunk) (current_b : List Int) :
    List Int × List Int × Nat :=
  if s.apply_windowing current_b then
    let trim_len := current_b.length - s.window_size
    let b_slice := current_b.drop trim_len
    let a_lower_bound := trim_len - s.window_size
    let a_upper_bound :=
      min s.a.length (a_lower_bound + s.window_size * s.a_window_factor)
    let a_lower_bound_final := min a_lower_bound a_upper_bound
    (listSlice s.a a_lower_bound_final a_upper_bound, b_slice, a_lower_bound_final)
  else
    (s.a, current_b, 0)

/-- The body of `StreamNextChunk::_next_chunk`, parametrised by the external
alignment primitive `alignment` (producing the chronological change-region
stream that `imara_diff::diff` would feed to the sink). `none` models a Rust
panic (the collector's assertion); every return of the source is `some`. -/
def StreamNextChunk._next_chunk
    (alignment : List Int → List Int → List (NRange × NRange))
    (s : StreamNextChunk) (current_b : List Int) (chunk_size : Nat) :
    Option (List Int) :=
  if s.a.isEmpty || chunk_size == 0 then
    some []
  else
    let slc := s.selected_slices current_b
    let a_slice := slc.1
    let b_slice := slc.2.1
    let a_slice_start_offset := slc.2.2
    let a_len := a_slice.length
    let b_len := b_slice.length
    if b_len == 0 && !current_b.isEmpty then
      some (listSlice s.a 0 (min chunk_size s.a.length))
    else if b_len == 0 && current_b.isEmpty then
      some (listSlice s.a 0 (min chunk_size s.a.length))
    else
      match runCollector (alignment a_slice b_slice) a_len b_len with
      | none => none
      | some «matches» =>
        if «matches».isEmpty then
          if s.apply_windowing current_b then some []
          else some (listSlice s.a 0 (min chunk_size s.a.length))
        else
          match «matches».getLast? with
          | none => some []
          | some (last_match_a_range, last_match_b_range) =>
            if !(last_match_b_range.stop == b_len) then
              some []
            else
              let unmatched_offset_in_original_a :=
                a_slice_start_offset + last_match_a_range.stop
              if s.a.length ≤ unmatched_offset_in_original_a then
                some []
              else
                some (listSlice s.a unmatched_offset_in_original_a
                  (min (unmatched_offset_in_original_a + chunk_size) s.a.length))

/-- The public method `StreamNextChunk::next_chunk`, which just forwards to
`_next_chunk`. -/
def StreamNextChunk.next_chunk
    (alignment : List Int → List Int → List (NRange × NRange))
    (s : StreamNextChunk) (current_b : List Int) (chunk_size : Nat) :
    Option (List Int) :=
  s._next_chunk alignment current_b chunk_size

/-- Length of the longest common prefix of two token lists. -/
def commonPrefixLen : List Int → List Int → Nat
  | x :: xs, y :: ys => if x = y then commonPrefixLen xs ys + 1 else 0
  | _, _ => 0

/-- Length of the longest common suffix of two token lists. -/
def commonSuffixLen (a b : List Int) : Nat :=
  commonPrefixLen a.reverse b.reverse

/-- Modelled from the spec: the Alignment Primitive (the external
`imara_diff::diff` with `Algorithm::Histogram`, not part of this repository)
is "a correct, already-implemented LCS/histogram-style diff primitive"
producing "a chronological sequence of disjoint change regions
`(rangeInA, rangeInB)` covering every place the two streams diverge;
everything between consecutive change regions (and after the last one) is an
implicit equal/matching region". This model strips the common prefix and the
common suffix (both genuinely equal regions) and reports the remainder as a
single change region; on the prefix-shaped inputs the convergence claim
exercises, this coincides with what any correct minimal diff reports. -/
def specDiff (a b : List Int) : List (NRange × NRange) :=
  let p := commonPrefixLen a b
  let q := commonSuffixLen (a.drop p) (b.drop p)
  if p = a.length ∧ p = b.length then []
  else [(⟨p, a.length - q⟩, ⟨p, b.length - q⟩)]

/-- One step of the driver loop in `test_stream_next_chunk`: append the
predicted chunk (under the spec-modelled alignment primitive) to the
observed sequence. -/
def stepObs (s : StreamNextChunk) (c : Nat) (obs : List Int) : List Int :=
  obs ++ (s._next_chunk specDiff obs c).getD []

/-- The observed sequence after `i` driver-loop steps starting from the
empty observed sequence. -/
def iterObs (s : StreamNextChunk) (c : Nat) : Nat → List Int
  | 0 => []
  | i + 1 => stepObs s c (iterObs s c i)

/-- Follows the spec's words (§4.2 Windowing Policy), for comparison with the
code's `selected_slices`: under the activation condition, `trimLen =
len(observed) - windowSize`, `bSlice = observed[trimLen..]`, `aLowerBound =
max(0, trimLen - windowSize)` (over the integers), `aUpperBound =
min(referenceLength, aLowerBound + windowSize * aWindowFactor)`,
`aLowerBoundFinal = min(aLowerBound, aUpperBound)`, `aSlice =
reference[aLowerBoundFinal..aUpperBound]`, `aOffset = aLowerBoundFinal`;
otherwise the full sequences with offset 0. -/
def specWindowing (s : StreamNextChunk) (observed : List Int) :
    List Int × List Int × Nat :=
  if observed ≠ [] ∧ 0 < s.window_size ∧
      s.min_window_threshold ≤ s.window_size ∧
      s.window_size ≤ observed.length then
    let trimLen := observed.length - s.window_size
    let bSlice := observed.drop trimLen
    let aLowerBound := (max 0 ((trimLen : Int) - (s.window_size : Int))).toNat
    let aUpperBound :=
      min s.a.length (aLowerBound + s.window_size * s.a_window_factor)
    let aLowerBoundFinal := min aLowerBound aUpperBound
    (listSlice s.a aLowerBoundFinal aUpperBound, bSlice, aLowerBoundFinal)
  else
    (s.a, observed, 0)

/-- Contract of the Alignment Primitive's change-region stream (spec §2 and
§4.3): chronological and disjoint, within the bounds of both sides, and the
implicit equal regions between consecutive changes (and the trailing one)
have the same length on both sides. `la` and `lb` are the ends of the
previous change region. -/
def validChangeStream : Nat → Nat → List (NRange × NRange) → Nat → Nat → Bool
  | la, lb, [], aLen, bLen =>
      decide (la ≤ aLen) && decide (lb ≤ bLen) &&
      decide (aLen - la = bLen - lb)
  | la, lb, (bef, aft) :: rest, aLen, bLen =>
      decide (la ≤ bef.start) && decide (lb ≤ aft.start) &&
      decide (bef.start - la = aft.start - lb) &&
      decide (bef.start ≤ bef.stop) && decide (aft.start ≤ aft.stop) &&
      validChangeStream bef.stop aft.stop rest aLen bLen

/-- Follows the spec's words (§4.3 Match Extractor), for comparison with the
code's `runCollector`: the ordered sequence of non-empty equal regions
between consecutive change regions, plus the non-empty trailing region after
the last change. -/
def specMatches : Nat → Nat → List (NRange × NRange) → Nat → Nat →
    List (NRange × NRange)
  | la, lb, [], aLen, bLen =>
      if la < aLen ∨ lb < bLen then [(⟨la, aLen⟩, ⟨lb, bLen⟩)] else []
  | la, lb, (bef, aft) :: rest, aLen, bLen =>
      (if la < bef.start ∨ lb < aft.start then
        [(⟨la, bef.start⟩, ⟨lb, aft.start⟩)]
      else []) ++ specMatches bef.stop aft.stop rest aLen bLen

lemma listSlice_zero (l : List Int) (m : Nat) : listSlice l 0 m = l.take m := by
  simp [listSlice]

/-- C9: `StreamNextChunk::new` sets `window_size` to `0` when the reference is
empty and to `max 1 (len / 15)` otherwise, `min_window_threshold` to `100`,
`a_window_factor` to `3`, and stores the reference; the structure has no
mutating operation, so these values are fixed for the predictor's lifetime
(the pyo3 `py_new` constructor computes the identical values). -/
theorem new_sets_window_config (a : List Int) :
    (StreamNextChunk.new a).window_size
        = (if a = [] then 0 else max 1 (a.length / 15)) ∧
    (StreamNextChunk.new a).min_window_threshold = 100 ∧
    (StreamNextChunk.new a).a_window_factor = 3 ∧
    (StreamNextChunk.new a).a = a := by
  simp [StreamNextChunk.new, List.isEmpty_iff]

/-- C10: whenever the reference is empty or the requested chunk size is zero,
`_next_chunk` returns the empty sequence (`some []`, never the `none` that
models a panic), for every observed sequence and every alignment primitive. -/
theorem degenerate_inputs_return_empty
    (alignment : List Int → List Int → List (NRange × NRange))
    (s : StreamNextChunk) (current_b : List Int) (chunk_size : Nat)
    (h : s.a = [] ∨ chunk_size = 0) :
    s._next_chunk alignment current_b chunk_size = some [] := by
  unfold StreamNextChunk._next_chunk
  rcases h with h | h <;> simp [h]

theorem degenerate_inputs_return_empty_witness :
    ((StreamNextChunk.new []).a = [] ∨ (3 : Nat) = 0) ∧
      (StreamNextChunk.new [])._next_chunk (fun _ _ => []) [1, 2] 3 = some [] :=
  ⟨Or.inl rfl,
    degenerate_inputs_return_empty (fun _ _ => []) (StreamNextChunk.new [])
      [1, 2] 3 (Or.inl rfl)⟩

lemma apply_windowing_iff (s : StreamNextChunk) (b : List Int) :
    s.apply_windowing b = true ↔
      b ≠ [] ∧ 0 < s.window_size ∧ s.min_window_threshold ≤ s.window_size ∧
        s.window_size ≤ b.length := by
  simp [StreamNextChunk.apply_windowing, List.isEmpty_iff, and_assoc]

/-- C2: windowing is applied exactly under the spec's activation condition,
and the selected `(aSlice, bSlice, aOffset)` triple coincides with the
spec's Windowing Policy formulas (with `max(0, trimLen - windowSize)` taken
over the integers) in the windowed case and with the full sequences at
offset 0 otherwise. -/
theorem windowing_policy_correct (s : StreamNextChunk) (b : List Int) :
    (s.apply_windowing b = true ↔
      b ≠ [] ∧ 0 < s.window_size ∧ s.min_window_threshold ≤ s.window_size ∧
        s.window_size ≤ b.length) ∧
    s.selected_slices b = specWindowing s b := by
  refine ⟨apply_windowing_iff s b, ?_⟩
  unfold StreamNextChunk.selected_slices specWindowing
  by_cases h : s.apply_windowing b = true
  · rw [if_pos h, if_pos ((apply_windowing_iff s b).mp h)]
    have harith : (max 0 (((b.length - s.window_size : Nat) : Int)
        - (s.window_size : Int))).toNat = b.length - s.window_size - s.window_size := by
      omega
    simp only [harith]
  · rw [if_neg (by simpa using h),
      if_neg (fun hc => h ((apply_windowing_iff s b).mpr hc))]

/-- C8: when windowing is applied, the trimmed observed slice has exactly
`window_size` tokens and is non-empty (activation requires a positive
`window_size`); and in every case an empty selected observed slice forces an
empty observed sequence, so the source's branch for "`b_slice` empty after
trimming while `current_b` is non-empty" is unreachable. -/
theorem trimmed_b_slice_never_empty (s : StreamNextChunk) (b : List Int) :
    (s.apply_windowing b = true →
      (s.selected_slices b).2.1.length = s.window_size ∧
        (s.selected_slices b).2.1 ≠ []) ∧
    ((s.selected_slices b).2.1 = [] → b = []) := by
  constructor
  · intro h
    obtain ⟨-, hpos, -, hlen⟩ := (apply_windowing_iff s b).mp h
    unfold StreamNextChunk.selected_slices
    rw [if_pos h]
    constructor
    · simp
      omega
    · intro hnil
      have := congrArg List.length hnil
      simp at this
      omega
  · intro h
    unfold StreamNextChunk.selected_slices at h
    by_cases hw : s.apply_windowing b = true
    · rw [if_pos hw] at h
      obtain ⟨-, hpos, -, hlen⟩ := (apply_windowing_iff s b).mp hw
      have := congrArg List.length h
      simp at this
      omega
    · rw [if_neg hw] at h
      exact h

theorem trimmed_b_slice_never_empty_witness :
    ((⟨[1, 2, 3, 4, 5, 6], 2, 1, 3⟩ : StreamNextChunk).apply_windowing
        [1, 2, 3] = true) ∧
      ((⟨[1, 2, 3, 4, 5, 6], 2, 1, 3⟩ : StreamNextChunk).selected_slices
          [1, 2, 3]).2.1.length = 2 ∧
      ((⟨[1, 2, 3, 4, 5, 6], 2, 1, 3⟩ : StreamNextChunk).selected_slices
          [1, 2, 3]).2.1 ≠ [] :=
  ⟨by decide,
    (trimmed_b_slice_never_empty ⟨[1, 2, 3, 4, 5, 6], 2, 1, 3⟩ [1, 2, 3]).1
      (by decide)⟩

lemma next_chunk_empty_b_eval
    (alignment : List Int → List Int → List (NRange × NRange))
    (s : StreamNextChunk) (current_b : List Int) (chunk_size : Nat)
    (ha : s.a ≠ []) (hc : 0 < chunk_size)
    (hb : (s.selected_slices current_b).2.1 = []) :
    s._next_chunk alignment current_b chunk_size
      = some (s.a.take (min chunk_size s.a.length)) := by
  have hc' : chunk_size ≠ 0 := by omega
  unfold StreamNextChunk._next_chunk
  simp only [List.isEmpty_eq_false.mpr ha, beq_eq_false_iff_ne, hb]
  by_cases hcb : current_b = []
  · simp [hcb, hc', listSlice_zero]
  · simp [hcb, hc', hb, listSlice_zero]

/-- C4: for a non-empty reference and positive chunk size, whenever the
selected observed slice is empty (in particular whenever the observed
sequence itself is empty), `_next_chunk` returns the first
`min(chunkSize, referenceLength)` tokens of the full reference, for every
alignment primitive. -/
theorem empty_b_slice_predicts_start
    (alignment : List Int → List Int → List (NRange × NRange))
    (s : StreamNextChunk) (current_b : List Int) (chunk_size : Nat)
    (ha : s.a ≠ []) (hc : 0 < chunk_size)
    (hb : (s.selected_slices current_b).2.1 = []) :
    s._next_chunk alignment current_b chunk_size
      = some (s.a.take (min chunk_size s.a.length)) :=
  next_chunk_empty_b_eval alignment s current_b chunk_size ha hc hb

theorem empty_b_slice_predicts_start_witness :
    ((StreamNextChunk.new [10, 20]).a ≠ [] ∧ (0 : Nat) < 3 ∧
      ((StreamNextChunk.new [10, 20]).selected_slices []).2.1 = []) ∧
    (StreamNextChunk.new [10, 20])._next_chunk (fun _ _ => []) [] 3
      = some ((StreamNextChunk.new [10, 20]).a.take
          (min 3 (StreamNextChunk.new [10, 20]).a.length)) :=
  ⟨⟨by decide, by decide, by decide⟩,
    empty_b_slice_predicts_start (fun _ _ => []) (StreamNextChunk.new [10, 20])
      [] 3 (by decide) (by decide) (by decide)⟩

/-- C3: for a non-empty reference, a positive chunk size and a non-empty
selected observed slice, if the match list produced by the collector is
non-empty but its last matching block does not end exactly at the end of the
observed slice, `_next_chunk` returns the empty sequence. -/
theorem unaligned_tail_returns_empty
    (alignment : List Int → List Int → List (NRange × NRange))
    (s : StreamNextChunk) (current_b : List Int) (chunk_size : Nat)
    (ms : List (NRange × NRange)) (ra rb : NRange)
    (ha : s.a ≠ []) (hc : 0 < chunk_size)
    (hbne : (s.selected_slices current_b).2.1 ≠ [])
    (hrun : runCollector
        (alignment (s.selected_slices current_b).1
          (s.selected_slices current_b).2.1)
        (s.selected_slices current_b).1.length
        (s.selected_slices current_b).2.1.length = some ms)
    (hlast : ms.getLast? = some (ra, rb))
    (hend : rb.stop ≠ (s.selected_slices current_b).2.1.length) :
    s._next_chunk alignment current_b chunk_size = some [] := by
  have hc' : chunk_size ≠ 0 := by omega
  have hblen : (s.selected_slices current_b).2.1.length ≠ 0 := by
    simpa [List.length_eq_zero] using hbne
  have hms : ms ≠ [] := by
    intro h; rw [h] at hlast; simp at hlast
  unfold StreamNextChunk._next_chunk
  simp only [List.isEmpty_eq_false.mpr ha, hc', beq_iff_eq, if_false,
    Bool.false_or, hblen, hrun, hlast, List.isEmpty_eq_false.mpr hms]
  simp [hblen, hms, hlast, hend]

theorem unaligned_tail_returns_empty_witness :
    ((StreamNextChunk.new [1, 2, 3, 4, 5, 6]).a ≠ [] ∧ (0 : Nat) < 3 ∧
      ((StreamNextChunk.new [1, 2, 3, 4, 5, 6]).selected_slices
        [1, 2, 99]).2.1 ≠ []) ∧
    (StreamNextChunk.new [1, 2, 3, 4, 5, 6])._next_chunk
      (fun _ _ => [(⟨2, 6⟩, ⟨2, 3⟩)]) [1, 2, 99] 3 = some [] :=
  ⟨⟨by decide, by decide, by decide⟩,
    unaligned_tail_returns_empty (fun _ _ => [(⟨2, 6⟩, ⟨2, 3⟩)])
      (StreamNextChunk.new [1, 2, 3, 4, 5, 6]) [1, 2, 99] 3
      [(⟨0, 2⟩, ⟨0, 2⟩)] ⟨0, 2⟩ ⟨0, 2⟩
      (by decide) (by decide) (by decide) (by decide) (by decide) (by decide)⟩

lemma next_chunk_resume_eval
    (alignment : List Int → List Int → List (NRange × NRange))
    (s : StreamNextChunk) (current_b : List Int) (chunk_size : Nat)
    (ms : List (NRange × NRange)) (ra rb : NRange)
    (ha : s.a ≠ []) (hc : 0 < chunk_size)
    (hbne : (s.selected_slices current_b).2.1 ≠ [])
    (hrun : runCollector
        (alignment (s.selected_slices current_b).1
          (s.selected_slices current_b).2.1)
        (s.selected_slices current_b).1.length
        (s.selected_slices current_b).2.1.length = some ms)
    (hlast : ms.getLast? = some (ra, rb))
    (hend : rb.stop = (s.selected_slices current_b).2.1.length) :
    s._next_chunk alignment current_b chunk_size =
      some (if s.a.length ≤ (s.selected_slices current_b).2.2 + ra.stop then []
        else listSlice s.a ((s.selected_slices current_b).2.2 + ra.stop)
          (min ((s.selected_slices current_b).2.2 + ra.stop + chunk_size)
            s.a.length)) := by
  have hc' : chunk_size ≠ 0 := by omega
  have hblen : (s.selected_slices current_b).2.1.length ≠ 0 := by
    simpa [List.length_eq_zero] using hbne
  have hms : ms ≠ [] := by
    intro h; rw [h] at hlast; simp at hlast
  unfold StreamNextChunk._next_chunk
  simp only [List.isEmpty_eq_false.mpr ha, hc', beq_iff_eq, if_false,
    Bool.false_or, hblen, hrun, hlast, List.isEmpty_eq_false.mpr hms]
  have hbeq : ((s.selected_slices current_b).2.1.length == 0) = false := by
    simpa using hblen
  simp only [hbeq, Bool.false_and, Bool.false_eq_true, if_false,
    List.isEmpty_eq_false.mpr hms, hlast, hend, beq_self_eq_true,
    Bool.not_true]
  split <;> rfl

/-- C1: for a non-empty reference, a positive chunk size and a non-empty
selected observed slice, if the match list is non-empty and its last matching
block `(ra, rb)` ends exactly at the end of the observed slice, `_next_chunk`
returns the reference-global slice starting at `aOffset + ra.stop` of at most
`chunk_size` tokens clamped to the reference length — except that it returns
empty when that resume offset is already at or past the end of the
reference. -/
theorem resume_after_last_match
    (alignment : List Int → List Int → List (NRange × NRange))
    (s : StreamNextChunk) (current_b : List Int) (chunk_size : Nat)
    (ms : List (NRange × NRange)) (ra rb : NRange)
    (ha : s.a ≠ []) (hc : 0 < chunk_size)
    (hbne : (s.selected_slices current_b).2.1 ≠ [])
    (hrun : runCollector
        (alignment (s.selected_slices current_b).1
          (s.selected_slices current_b).2.1)
        (s.selected_slices current_b).1.length
        (s.selected_slices current_b).2.1.length = some ms)
    (hlast : ms.getLast? = some (ra, rb))
    (hend : rb.stop = (s.selected_slices current_b).2.1.length) :
    s._next_chunk alignment current_b chunk_size =
      some (if s.a.length ≤ (s.selected_slices current_b).2.2 + ra.stop then []
        else listSlice s.a ((s.selected_slices current_b).2.2 + ra.stop)
          (min ((s.selected_slices current_b).2.2 + ra.stop + chunk_size)
            s.a.length)) :=
  next_chunk_resume_eval alignment s current_b chunk_size ms ra rb ha hc hbne
    hrun hlast hend

theorem resume_after_last_match_witness :
    ((StreamNextChunk.new [10, 20, 30, 40]).a ≠ [] ∧ (0 : Nat) < 3 ∧
      ((StreamNextChunk.new [10, 20, 30, 40]).selected_slices
        [10, 20]).2.1 ≠ []) ∧
    (StreamNextChunk.new [10, 20, 30, 40])._next_chunk
      (fun _ _ => [(⟨2, 4⟩, ⟨2, 2⟩)]) [10, 20] 3 = some [30, 40] :=
  ⟨⟨by decide, by decide, by decide⟩, by
    have h := resume_after_last_match (fun _ _ => [(⟨2, 4⟩, ⟨2, 2⟩)])
      (StreamNextChunk.new [10, 20, 30, 40]) [10, 20] 3
      [(⟨0, 2⟩, ⟨0, 2⟩)] ⟨0, 2⟩ ⟨0, 2⟩
      (by decide) (by decide) (by decide) (by decide) (by decide) (by decide)
    simpa using h⟩

/-- C5: for a non-empty reference, a positive chunk size and a non-empty
selected observed slice, if the collector yields no matching blocks at all,
`_next_chunk` returns empty when windowing was applied on that call and the
first `min(chunkSize, referenceLength)` tokens of the full reference when it
was not. -/
theorem no_match_fallback
    (alignment : List Int → List Int → List (NRange × NRange))
    (s : StreamNextChunk) (current_b : List Int) (chunk_size : Nat)
    (ha : s.a ≠ []) (hc : 0 < chunk_size)
    (hbne : (s.selected_slices current_b).2.1 ≠ [])
    (hrun : runCollector
        (alignment (s.selected_slices current_b).1
          (s.selected_slices current_b).2.1)
        (s.selected_slices current_b).1.length
        (s.selected_slices current_b).2.1.length = some []) :
    s._next_chunk alignment current_b chunk_size =
      some (if s.apply_windowing current_b then []
        else s.a.take (min chunk_size s.a.length)) := by
  have hc' : chunk_size ≠ 0 := by omega
  have hblen : (s.selected_slices current_b).2.1.length ≠ 0 := by
    simpa [List.length_eq_zero] using hbne
  unfold StreamNextChunk._next_chunk
  simp only [List.isEmpty_eq_false.mpr ha, hc', beq_iff_eq, if_false,
    Bool.false_or, hblen, hrun]
  have hbeq : ((s.selected_slices current_b).2.1.length == 0) = false := by
    simpa using hblen
  simp only [hbeq, Bool.false_and, Bool.false_eq_true, if_false,
    List.isEmpty_nil, if_true, listSlice_zero]
  split <;> rfl

theorem no_match_fallback_witness :
    (((⟨[1, 2, 3, 4, 5, 6], 2, 1, 3⟩ : StreamNextChunk).a ≠ [] ∧
      (0 : Nat) < 2 ∧
      ((⟨[1, 2, 3, 4, 5, 6], 2, 1, 3⟩ : StreamNextChunk).selected_slices
        [7, 8, 9]).2.1 ≠ []) ∧
    (⟨[1, 2, 3, 4, 5, 6], 2, 1, 3⟩ : StreamNextChunk)._next_chunk
      (fun _ _ => [(⟨0, 6⟩, ⟨0, 2⟩)]) [7, 8, 9] 2 = some []) :=
  ⟨⟨by decide, by decide, by decide⟩, by
    have h := no_match_fallback (fun _ _ => [(⟨0, 6⟩, ⟨0, 2⟩)])
      (⟨[1, 2, 3, 4, 5, 6], 2, 1, 3⟩ : StreamNextChunk) [7, 8, 9] 2
      (by decide) (by decide) (by decide) (by decide)
    simpa using h⟩

lemma finish_spec (acc : List (NRange × NRange)) (la lb aLen bLen : Nat)
    (h1 : la ≤ aLen) (h2 : lb ≤ bLen) (h3 : aLen - la = bLen - lb) :
    MatchCollector.finish ⟨acc, la, lb, aLen, bLen⟩
      = some (acc ++ (if la < aLen ∨ lb < bLen then
          [((⟨la, aLen⟩ : NRange), (⟨lb, bLen⟩ : NRange))] else [])) := by
  unfold MatchCollector.finish
  by_cases hlt : la < aLen ∨ lb < bLen
  · rw [if_pos hlt]
    have hfa : (⟨la, aLen⟩ : NRange).isEmpty = false := by
      simp only [NRange.isEmpty, decide_eq_false_iff_not, not_le]
      omega
    simp only [hfa, Bool.not_false, Bool.true_or, if_true, NRange.rlen]
    rw [if_pos h3]
  · rw [if_neg hlt]
    have ha' : la = aLen := by omega
    have hb' : lb = bLen := by omega
    simp [NRange.isEmpty, ha', hb']

lemma process_change_spec (acc : List (NRange × NRange))
    (la lb aLen bLen : Nat) (bef aft : NRange)
    (h1 : la ≤ bef.start) (h2 : lb ≤ aft.start)
    (h3 : bef.start - la = aft.start - lb) :
    MatchCollector.process_change ⟨acc, la, lb, aLen, bLen⟩ bef aft
      = some ⟨acc ++ (if la < bef.start ∨ lb < aft.start then
            [((⟨la, bef.start⟩ : NRange), (⟨lb, aft.start⟩ : NRange))]
          else []),
          bef.stop, aft.stop, aLen, bLen⟩ := by
  unfold MatchCollector.process_change
  by_cases hlt : la < bef.start ∨ lb < aft.start
  · rw [if_pos hlt]
    have hfa : (⟨la, bef.start⟩ : NRange).isEmpty = false := by
      simp only [NRange.isEmpty, decide_eq_false_iff_not, not_le]
      omega
    simp only [hfa, Bool.not_false, Bool.true_or, if_true, NRange.rlen]
    rw [if_pos h3]
  · rw [if_neg hlt]
    have ha' : la = bef.start := by omega
    have hb' : lb = aft.start := by omega
    simp [NRange.isEmpty, ha', hb']

lemma collector_fold_spec (changes : List (NRange × NRange)) :
    ∀ (la lb aLen bLen : Nat) (acc : List (NRange × NRange)),
      validChangeStream la lb changes aLen bLen = true →
      (List.foldlM
          (fun (c : MatchCollector) (p : NRange × NRange) =>
            c.process_change p.1 p.2)
          (⟨acc, la, lb, aLen, bLen⟩ : MatchCollector) changes).bind
          MatchCollector.finish
        = some (acc ++ specMatches la lb changes aLen bLen) := by
  induction changes with
  | nil =>
    intro la lb aLen bLen acc h
    simp only [validChangeStream, Bool.and_eq_true, decide_eq_true_eq] at h
    obtain ⟨⟨h1, h2⟩, h3⟩ := h
    simp only [List.foldlM_nil, Option.pure_def, Option.bind_some, specMatches]
    exact finish_spec acc la lb aLen bLen h1 h2 h3
  | cons hd tl ih =>
    intro la lb aLen bLen acc h
    obtain ⟨bef, aft⟩ := hd
    simp only [validChangeStream, Bool.and_eq_true, decide_eq_true_eq] at h
    obtain ⟨⟨⟨⟨⟨h1, h2⟩, h3⟩, h4⟩, h5⟩, hrest⟩ := h
    simp only [List.foldlM_cons]
    rw [process_change_spec acc la lb aLen bLen bef aft h1 h2 h3]
    simp only [Option.bind_eq_bind, Option.some_bind, specMatches]
    have hih := ih bef.stop aft.stop aLen bLen
      (acc ++ (if la < bef.start ∨ lb < aft.start then
        [((⟨la, bef.start⟩ : NRange), (⟨lb, aft.start⟩ : NRange))]
      else [])) hrest
    simpa [List.append_assoc] using hih

lemma specMatches_blocks (changes : List (NRange × NRange)) :
    ∀ (la lb aLen bLen : Nat),
      validChangeStream la lb changes aLen bLen = true →
      ∀ p ∈ specMatches la lb changes aLen bLen,
        p.1.rlen = p.2.rlen ∧ 0 < p.1.rlen := by
  induction changes with
  | nil =>
    intro la lb aLen bLen h p hp
    simp only [validChangeStream, Bool.and_eq_true, decide_eq_true_eq] at h
    obtain ⟨⟨h1, h2⟩, h3⟩ := h
    simp only [specMatches] at hp
    by_cases hlt : la < aLen ∨ lb < bLen
    · rw [if_pos hlt] at hp
      simp only [List.mem_singleton] at hp
      subst hp
      simp only [NRange.rlen]
      omega
    · rw [if_neg hlt] at hp
      simp at hp
  | cons hd tl ih =>
    intro la lb aLen bLen h p hp
    obtain ⟨bef, aft⟩ := hd
    simp only [validChangeStream, Bool.and_eq_true, decide_eq_true_eq] at h
    obtain ⟨⟨⟨⟨⟨h1, h2⟩, h3⟩, h4⟩, h5⟩, hrest⟩ := h
    simp only [specMatches, List.mem_append] at hp
    rcases hp with hp | hp
    · by_cases hlt : la < bef.start ∨ lb < aft.start
      · rw [if_pos hlt] at hp
        simp only [List.mem_singleton] at hp
        subst hp
        simp only [NRange.rlen]
        omega
      · rw [if_neg hlt] at hp
        simp at hp
    · exact ih bef.stop aft.stop aLen bLen hrest p hp

lemma mismatch_first_change_fatal (bef aft : NRange) (aLen bLen : Nat)
    (h : bef.start ≠ aft.start) :
    runCollector [(bef, aft)] aLen bLen = none := by
  unfold runCollector
  simp only [List.foldlM_cons, List.foldlM_nil]
  unfold MatchCollector.new MatchCollector.process_change
  have hcond : (!(⟨0, bef.start⟩ : NRange).isEmpty
      || !(⟨0, aft.start⟩ : NRange).isEmpty) = true := by
    simp only [NRange.isEmpty, Bool.or_eq_true, Bool.not_eq_true',
      decide_eq_false_iff_not, not_le]
    omega
  simp only [hcond, if_true, NRange.rlen]
  rw [if_neg (by simpa using h)]
  rfl

/-- C7: on every change-region stream satisfying the Alignment Primitive's
contract, the match extractor emits, in order, exactly the non-empty equal
regions between consecutive change regions plus the non-empty trailing
region, every emitted block has ranges of equal positive length, and the
fatal equal-length assertion (modelled by `none`) never fires; a genuine
length mismatch in the first gap does trigger it. -/
theorem match_extractor_correct (changes : List (NRange × NRange))
    (aLen bLen : Nat)
    (h : validChangeStream 0 0 changes aLen bLen = true) :
    runCollector changes aLen bLen
        = some (specMatches 0 0 changes aLen bLen) ∧
    (∀ p ∈ specMatches 0 0 changes aLen bLen,
        p.1.rlen = p.2.rlen ∧ 0 < p.1.rlen) ∧
    (∀ bef aft : NRange, bef.start ≠ aft.start →
        runCollector [(bef, aft)] aLen bLen = none) := by
  refine ⟨?_, specMatches_blocks changes 0 0 aLen bLen h,
    fun bef aft hne => mismatch_first_change_fatal bef aft aLen bLen hne⟩
  have := collector_fold_spec changes 0 0 aLen bLen [] h
  simpa [runCollector, MatchCollector.new] using this

theorem match_extractor_correct_witness :
    validChangeStream 0 0
        [((⟨1, 3⟩ : NRange), (⟨1, 2⟩ : NRange))] 5 4 = true ∧
    runCollector [((⟨1, 3⟩ : NRange), (⟨1, 2⟩ : NRange))] 5 4
      = some (specMatches 0 0
          [((⟨1, 3⟩ : NRange), (⟨1, 2⟩ : NRange))] 5 4) :=
  ⟨by decide,
    (match_extractor_correct [((⟨1, 3⟩ : NRange), (⟨1, 2⟩ : NRange))] 5 4
      (by decide)).1⟩

lemma commonPrefixLen_nil_right (l : List Int) : commonPrefixLen l [] = 0 := by
  cases l <;> rfl

lemma commonPrefixLen_take (R : List Int) :
    ∀ k : Nat, commonPrefixLen R (R.take k) = min k R.length := by
  induction R with
  | nil => intro k; simp [commonPrefixLen_nil_right]
  | cons x xs ih =>
    intro k
    cases k with
    | zero => simp [commonPrefixLen_nil_right]
    | succ k =>
      simp [commonPrefixLen, ih k]
      omega

lemma commonPrefixLen_self (R : List Int) : commonPrefixLen R R = R.length := by
  have := commonPrefixLen_take R R.length
  rw [List.take_length] at this
  simpa using this

lemma commonSuffixLen_nil_right (l : List Int) : commonSuffixLen l [] = 0 := by
  simp [commonSuffixLen, commonPrefixLen_nil_right]

lemma specDiff_self (R : List Int) : specDiff R R = [] := by
  unfold specDiff
  simp [commonPrefixLen_self]

lemma specDiff_take (R : List Int) (k : Nat) (hk : k < R.length) :
    specDiff R (R.take k)
      = [((⟨k, R.length⟩ : NRange), (⟨k, k⟩ : NRange))] := by
  have hp : commonPrefixLen R (R.take k) = k := by
    rw [commonPrefixLen_take]; omega
  have hdrop : (R.take k).drop k = [] := by
    apply List.drop_eq_nil_of_le; simp
  unfold specDiff
  simp only [hp, hdrop, commonSuffixLen_nil_right, List.length_take,
    Nat.sub_zero]
  rw [if_neg (by omega : ¬(k = R.length ∧ k = min k R.length))]
  have hmin : min k R.length = k := by omega
  rw [hmin]

lemma runCollector_nil_full (n : Nat) (hn : 0 < n) :
    runCollector [] n n = some [((⟨0, n⟩ : NRange), (⟨0, n⟩ : NRange))] := by
  unfold runCollector
  simp only [List.foldlM_nil, Option.pure_def, Option.some_bind,
    MatchCollector.new]
  rw [finish_spec [] 0 0 n n (by omega) (by omega) (by omega)]
  rw [if_pos (by omega : (0 : Nat) < n ∨ (0 : Nat) < n)]
  rfl

lemma runCollector_single_block (k n : Nat) (hk : 0 < k) :
    runCollector [((⟨k, n⟩ : NRange), (⟨k, k⟩ : NRange))] n k
      = some [((⟨0, k⟩ : NRange), (⟨0, k⟩ : NRange))] := by
  unfold runCollector
  simp only [List.foldlM_cons, MatchCollector.new]
  have hpc := process_change_spec [] 0 0 n k ⟨k, n⟩ ⟨k, k⟩ (Nat.zero_le _)
    (Nat.zero_le _) rfl
  dsimp only at hpc
  rw [if_pos (Or.inl hk)] at hpc
  simp only [List.nil_append] at hpc
  rw [hpc]
  simp only [Option.bind_eq_bind, Option.some_bind, List.foldlM_nil,
    Option.pure_def, Option.some_bind]
  have hf := finish_spec [((⟨0, k⟩ : NRange), (⟨0, k⟩ : NRange))] n k n k
    (le_refl n) (le_refl k) (by omega)
  rw [if_neg (by omega : ¬(n < n ∨ k < k))] at hf
  simp only [List.append_nil] at hf
  exact hf

lemma new_no_windowing (R b : List Int) (hsmall : R.length < 1500) :
    (StreamNextChunk.new R).apply_windowing b = false := by
  unfold StreamNextChunk.apply_windowing StreamNextChunk.new
  dsimp only
  by_cases hR : R.isEmpty
  · simp [hR]
  · have hthr : ¬ ((100 : Nat) ≤ max 1 (R.length / 15)) := by omega
    simp [hR, hthr]

lemma new_selected_full (R b : List Int) (hsmall : R.length < 1500) :
    (StreamNextChunk.new R).selected_slices b = (R, b, 0) := by
  unfold StreamNextChunk.selected_slices
  rw [new_no_windowing R b hsmall]
  rfl

lemma next_chunk_take (R : List Int) (c k : Nat) (hc : 0 < c)
    (hsmall : R.length < 1500) (hk0 : 0 < k) (hkn : k < R.length) :
    (StreamNextChunk.new R)._next_chunk specDiff (R.take k) c
      = some (listSlice R k (min (k + c) R.length)) := by
  have hR : R ≠ [] := by intro h; rw [h] at hkn; simp at hkn
  have hsel : (StreamNextChunk.new R).selected_slices (R.take k)
      = (R, R.take k, 0) := new_selected_full R (R.take k) hsmall
  have hlen : (R.take k).length = k := by simp; omega
  have hbne : (R.take k) ≠ [] := by
    intro h; rw [h] at hlen; simp at hlen; omega
  have hrun : runCollector (specDiff R (R.take k)) R.length (R.take k).length
      = some [((⟨0, k⟩ : NRange), (⟨0, k⟩ : NRange))] := by
    rw [specDiff_take R k hkn, hlen]
    exact runCollector_single_block k R.length hk0
  have h := next_chunk_resume_eval specDiff (StreamNextChunk.new R)
    (R.take k) c [((⟨0, k⟩ : NRange), (⟨0, k⟩ : NRange))] ⟨0, k⟩ ⟨0, k⟩
    hR hc (by rw [hsel]; exact hbne) (by rw [hsel]; exact hrun)
    (List.getLast?_singleton _) (by rw [hsel]; dsimp only; omega)
  rw [hsel] at h
  dsimp only at h
  rw [show (StreamNextChunk.new R).a = R from rfl] at h
  rw [h, if_neg (by omega : ¬ (R.length ≤ 0 + k))]
  have : (0 : Nat) + k = k := by omega
  rw [this]

lemma next_chunk_done (R : List Int) (c : Nat) (hR : R ≠ []) (hc : 0 < c)
    (hsmall : R.length < 1500) :
    (StreamNextChunk.new R)._next_chunk specDiff R c = some [] := by
  have hn : 0 < R.length := List.length_pos.mpr hR
  have hsel : (StreamNextChunk.new R).selected_slices R = (R, R, 0) :=
    new_selected_full R R hsmall
  have hrun : runCollector (specDiff R R) R.length R.length
      = some [((⟨0, R.length⟩ : NRange), (⟨0, R.length⟩ : NRange))] := by
    rw [specDiff_self]
    exact runCollector_nil_full R.length hn
  have h := next_chunk_resume_eval specDiff (StreamNextChunk.new R) R c
    [((⟨0, R.length⟩ : NRange), (⟨0, R.length⟩ : NRange))]
    ⟨0, R.length⟩ ⟨0, R.length⟩ hR hc (by rw [hsel]; exact hR)
    (by rw [hsel]; exact hrun) (List.getLast?_singleton _)
    (by rw [hsel])
  rw [hsel] at h
  dsimp only at h
  rw [show (StreamNextChunk.new R).a = R from rfl] at h
  rw [h, if_pos (by omega : R.length ≤ 0 + R.length)]

lemma stepObs_take (R : List Int) (c k : Nat) (hR : R ≠ []) (hc : 0 < c)
    (hsmall : R.length < 1500) (hk : k ≤ R.length) :
    stepObs (StreamNextChunk.new R) c (R.take k)
      = R.take (min (k + c) R.length) := by
  rcases Nat.eq_zero_or_pos k with hk0 | hk0
  · subst hk0
    unfold stepObs
    rw [List.take_zero]
    have hsel : ((StreamNextChunk.new R).selected_slices []).2.1 = [] := by
      rw [new_selected_full R [] hsmall]
    rw [next_chunk_empty_b_eval specDiff (StreamNextChunk.new R) [] c hR hc
      hsel]
    simp
    rfl
  · rcases Nat.lt_or_ge k R.length with hkn | hkn
    · unfold stepObs
      rw [next_chunk_take R c k hc hsmall hk0 hkn]
      simp only [Option.getD_some, listSlice]
      rw [← List.take_add]
      congr 1
      omega
    · have hkeq : k = R.length := by omega
      subst hkeq
      unfold stepObs
      rw [List.take_length, next_chunk_done R c hR hc hsmall]
      have hm : min (R.length + c) R.length = R.length := by omega
      rw [hm, List.take_length]
      simp

lemma iterObs_take (R : List Int) (c : Nat) (hR : R ≠ []) (hc : 0 < c)
    (hsmall : R.length < 1500) :
    ∀ i : Nat, iterObs (StreamNextChunk.new R) c i
      = R.take (min (i * c) R.length) := by
  intro i
  induction i with
  | zero => simp [iterObs]
  | succ i ih =>
    show stepObs (StreamNextChunk.new R) c (iterObs (StreamNextChunk.new R) c i)
      = R.take (min ((i + 1) * c) R.length)
    rw [ih, stepObs_take R c _ hR hc hsmall (by omega), Nat.succ_mul]
    congr 1
    omega

lemma ceil_mul_ge (n c : Nat) (hc : 0 < c) : n ≤ ((n + c - 1) / c) * c := by
  have h1 : (n + c - 1) / c < ((n + c - 1) / c) + 1 := Nat.lt_succ_self _
  have h2 := (Nat.div_lt_iff_lt_mul hc).mp h1
  have h3 : (((n + c - 1) / c) + 1) * c = ((n + c - 1) / c) * c + c :=
    Nat.succ_mul _ _
  omega

/-- C6: for every non-empty reference short enough that windowing never
triggers (`len(R) < 1500`, i.e. `windowSize < minWindowThreshold` for the
constructed predictor) and every positive chunk size `c`, iterating
`observed := observed ++ predict(observed, c)` from the empty observed
sequence (under the spec-modelled alignment primitive) reaches `observed = R`
after `ceil(len(R)/c)` steps — so in at most that many non-trivial steps —
and the final call on `observed = R` returns empty. -/
theorem convergence_in_ceil_steps (R : List Int) (c : Nat)
    (hR : R ≠ []) (hc : 0 < c) (hsmall : R.length < 1500) :
    iterObs (StreamNextChunk.new R) c ((R.length + c - 1) / c) = R ∧
    (StreamNextChunk.new R)._next_chunk specDiff R c = some [] := by
  refine ⟨?_, next_chunk_done R c hR hc hsmall⟩
  rw [iterObs_take R c hR hc hsmall]
  have hge := ceil_mul_ge R.length c hc
  have hm : min (((R.length + c - 1) / c) * c) R.length = R.length := by omega
  rw [hm, List.take_length]

theorem convergence_in_ceil_steps_witness :
    (([10, 20, 30, 40, 50, 60, 70, 80, 90, 100] : List Int) ≠ [] ∧
      (0 : Nat) < 3 ∧
      ([10, 20, 30, 40, 50, 60, 70, 80, 90, 100] : List Int).length < 1500) ∧
    (iterObs (StreamNextChunk.new
        [10, 20, 30, 40, 50, 60, 70, 80, 90, 100]) 3
        ((([10, 20, 30, 40, 50, 60, 70, 80, 90, 100] : List Int).length
          + 3 - 1) / 3)
      = [10, 20, 30, 40, 50, 60, 70, 80, 90, 100] ∧
    (StreamNextChunk.new [10, 20, 30, 40, 50, 60, 70, 80, 90, 100])._next_chunk
      specDiff [10, 20, 30, 40, 50, 60, 70, 80, 90, 100] 3 = some []) :=
  ⟨⟨by decide, by decide, by decide⟩,
    convergence_in_ceil_steps [10, 20, 30, 40, 50, 60, 70, 80, 90, 100] 3
      (by decide) (by decide) (by decide)⟩
